import Mathlib

/-!
Verification of the content-extraction engine of the `one-click` repository
(`src/content/extractor.ts` and its content-script sibling with the extended
navigation harvester, plus the headless copy in `mcp-server/src/index.ts`).

The DOM platform layer (node trees, `querySelectorAll`, `textContent`,
attribute access, the WHATWG `URL` class) is modelled explicitly below; the
repository functions themselves (`getMainContent`, `extractHeadings`,
`extractCodeBlocks`, `convertToMarkdown`, `processNode`,
`convertTableToMarkdown`, `detectLanguageFromElement`, `normalizeUrl`,
`collectLinks`, `detectDocSections`, ...) are translated statement by
statement from the TypeScript source.
-/

/-! ## JavaScript string primitives (ASCII fragment) -/

/-- Whitespace as matched by the JavaScript `\s` class and `String.trim`,
restricted to the ASCII range (all inputs in this development are ASCII). -/
def isJsWs (c : Char) : Bool :=
  c == ' ' || c == '\t' || c == '\n' || c == '\r' || c == '\x0b' || c == '\x0c'

/-- `String.prototype.trim`. -/
def jsTrim (s : String) : String :=
  String.mk (((s.toList.dropWhile isJsWs).reverse.dropWhile isJsWs).reverse)

/-- Helper for `collapseWs`: one pass over the characters, replacing each
maximal whitespace run by a single space; the flag records whether the
previous character was whitespace (so only the first character of a run
emits the space). -/
def collapseWsAux : List Char → Bool → List Char
  | [], _ => []
  | c :: rest, prevWs =>
    if isJsWs c then
      if prevWs then collapseWsAux rest true else ' ' :: collapseWsAux rest true
    else c :: collapseWsAux rest false

/-- `s.replace(/\s+/g, ' ')`. -/
def collapseWs (s : String) : String := String.mk (collapseWsAux s.toList false)

/-- ASCII lower-casing, as applied by `String.prototype.toLowerCase` to
ASCII text. -/
def lowerStr (s : String) : String := String.mk (s.toList.map Char.toLower)

/-- ASCII upper-casing (DOM `tagName` normalization for HTML elements). -/
def upperStr (s : String) : String := String.mk (s.toList.map Char.toUpper)

/-- Does `pat` occur at the head of `l`? -/
def listHasPre : List Char → List Char → Bool
  | [], _ => true
  | _ :: _, [] => false
  | p :: ps, c :: cs => p == c && listHasPre ps cs

/-- `String.prototype.startsWith`. -/
def strStarts (s pat : String) : Bool := listHasPre pat.toList s.toList

/-- `String.prototype.endsWith`. -/
def strEnds (s pat : String) : Bool :=
  listHasPre pat.toList.reverse s.toList.reverse

/-- Substring search over character lists. -/
def listHasSub (pat : List Char) : List Char → Bool
  | [] => listHasPre pat []
  | c :: rest => listHasPre pat (c :: rest) || listHasSub pat rest

/-- `String.prototype.includes`. -/
def strHasSub (s pat : String) : Bool := listHasSub pat.toList s.toList

/-- Remove the first occurrence of `pat` (JS `s.replace(pat, '')` with a
string pattern replaces only the first occurrence). -/
def removeFirstAux (pat : List Char) : List Char → List Char
  | [] => []
  | c :: rest =>
    if listHasPre pat (c :: rest) then (c :: rest).drop pat.length
    else c :: removeFirstAux pat rest

/-- `s.replace(pat, '')`. -/
def removeFirst (s pat : String) : String :=
  String.mk (removeFirstAux pat.toList s.toList)

/-- `s.split(' ')`: split on every single space, keeping empty pieces. -/
def splitOnSpaceAux : List Char → List Char → List String
  | [], acc => [String.mk acc.reverse]
  | c :: rest, acc =>
    if c == ' ' then String.mk acc.reverse :: splitOnSpaceAux rest []
    else splitOnSpaceAux rest (c :: acc)

/-- `String.prototype.split` with the one-space separator. -/
def splitOnSpace (s : String) : List String := splitOnSpaceAux s.toList []

/-- `s.split('\n')`. -/
def splitOnNlAux : List Char → List Char → List String
  | [], acc => [String.mk acc.reverse]
  | c :: rest, acc =>
    if c == '\n' then String.mk acc.reverse :: splitOnNlAux rest []
    else splitOnNlAux rest (c :: acc)

/-- Split a string at newline characters. -/
def splitOnNl (s : String) : List String := splitOnNlAux s.toList []

/-- Maximal non-whitespace runs of a character list; the accumulator holds
the reversed current run. -/
def wsTokensAux : List Char → List Char → List String
  | [], acc => if acc.isEmpty then [] else [String.mk acc.reverse]
  | c :: rest, acc =>
    if isJsWs c then
      if acc.isEmpty then wsTokensAux rest [] else String.mk acc.reverse :: wsTokensAux rest []
    else wsTokensAux rest (c :: acc)

/-- Whitespace-separated tokens of a string (used for word counting and for
CSS class-token lists). -/
def wsTokens (s : String) : List String := wsTokensAux s.toList []

/-- `text.trim().split(/\s+/).length` — note that splitting the empty string
yields `[""]`, of length 1. -/
def jsWordCount (s : String) : Nat :=
  let t := jsTrim s
  if t == "" then 1 else (wsTokens t).length

/-- `Array.prototype.join(sep)`. -/
def joinSep (sep : String) : List String → String
  | [] => ""
  | [x] => x
  | x :: y :: rest => x ++ sep ++ joinSep sep (y :: rest)

/-! ## The DOM tree model

`Node` variants: element, text, comment (the representative non-element,
non-text node kind). DOM `tagName` yields the upper-cased tag for HTML
elements; documents in this development store tags as the DOM reports them,
and all repository code lower-cases (or compares upper-case) explicitly,
exactly as the source does. -/

inductive DNode where
  | element (tag : String) (attrs : List (String × String)) (children : List DNode)
  | text (value : String)
  | comment (value : String)
deriving Repr

namespace DNode

/-- `Element.getAttribute`: first binding of the attribute, if present. -/
def getAttr (n : DNode) (name : String) : Option String :=
  match n with
  | element _ attrs _ => (attrs.find? (fun p => p.1 == name)).map (·.2)
  | _ => none

/-- DOM `tagName` (upper-cased for HTML elements; empty for non-elements). -/
def tagName : DNode → String
  | element t _ _ => upperStr t
  | _ => ""

/-- `el.className` (the empty string when the attribute is absent). -/
def className (n : DNode) : String := (n.getAttr "class").getD ""

/-- `el.id` (the empty string when the attribute is absent). -/
def idStr (n : DNode) : String := (n.getAttr "id").getD ""

/-- Child list of an element (empty for non-elements). -/
def childrenOf : DNode → List DNode
  | element _ _ cs => cs
  | _ => []

/-- Is this node an element? -/
def isElem : DNode → Bool
  | element _ _ _ => true
  | _ => false

mutual
/-- `Node.textContent` for elements and text nodes: the concatenated data of
all descendant text nodes (comments contribute nothing to an element's
`textContent`). -/
def textContent : DNode → String
  | text s => s
  | comment _ => ""
  | element _ _ cs => textContentList cs

/-- `textContent` concatenated over a child list. -/
def textContentList : List DNode → String
  | [] => ""
  | c :: cs => textContent c ++ textContentList cs
end

end DNode

/-! ## CSS selector engine

Only the selector forms the repository uses are modelled: compound simple
selectors (tag, `.class`, `#id`, `[attr]`, `[attr="v"]`, `[attr*="v"]`)
combined by the descendant combinator and grouped by commas.
`querySelectorAll` returns matches in document order (pre-order), strictly
below the context node. -/

structure SimpleSel where
  tag : Option String := none
  classes : List String := []
  idSel : Option String := none
  attrHas : List String := []
  attrEq : List (String × String) := []
  attrSub : List (String × String) := []
deriving Repr, DecidableEq

/-- One comma-alternative: a chain of ancestor simple selectors (outermost
first) and the target simple selector. -/
abbrev SelChain := List SimpleSel × SimpleSel

/-- A comma-separated selector group. -/
abbrev SelGroup := List SelChain

/-- Does an element match a compound simple selector? -/
def matchesSimple (s : SimpleSel) (n : DNode) : Bool :=
  n.isElem &&
  (match s.tag with
   | none => true
   | some t => lowerStr n.tagName == t) &&
  s.classes.all (fun c => (wsTokens (n.className)).contains c) &&
  (match s.idSel with
   | none => true
   | some v => n.idStr == v) &&
  s.attrHas.all (fun a => (n.getAttr a).isSome) &&
  s.attrEq.all (fun p => n.getAttr p.1 == some p.2) &&
  s.attrSub.all (fun p =>
    match n.getAttr p.1 with
    | none => false
    | some v => strHasSub v p.2)

/-- Does the ancestor list (outermost first) contain a subsequence matching
the given chain of simple selectors, in order? -/
def chainMatches : List SimpleSel → List DNode → Bool
  | [], _ => true
  | _ :: _, [] => false
  | s :: rest, a :: as' =>
    (matchesSimple s a && chainMatches rest as') || chainMatches (s :: rest) as'

/-- Does an element with the given ancestors match a selector group? -/
def matchesGroup (g : SelGroup) (anc : List DNode) (n : DNode) : Bool :=
  g.any (fun ch => matchesSimple ch.2 n && chainMatches ch.1 anc)

mutual
/-- Pre-order collection of matches below and including one node, carrying
the ancestor list (outermost first). -/
def qsaNode (g : SelGroup) (anc : List DNode) : DNode → List DNode
  | DNode.element t a cs =>
    (if matchesGroup g anc (DNode.element t a cs) then [DNode.element t a cs] else []) ++
      qsaList g (anc ++ [DNode.element t a cs]) cs
  | _ => []

/-- `qsaNode` over a sibling list, in document order. -/
def qsaList (g : SelGroup) (anc : List DNode) : List DNode → List DNode
  | [] => []
  | n :: rest => qsaNode g anc n ++ qsaList g anc rest
end

/-- `el.querySelectorAll(group)`: matching strict descendants of `el`, in
document order (the context node itself can satisfy ancestor parts of a
descendant chain). -/
def qsaFrom (el : DNode) (g : SelGroup) : List DNode :=
  qsaList g [el] el.childrenOf

/-- `el.querySelector(group)`. -/
def qsFrom (el : DNode) (g : SelGroup) : Option DNode := (qsaFrom el g).head?

/-- `document.querySelectorAll(group)`, for a document whose body element is
`body`: every element of the document (including `body` itself) is a
candidate. -/
def docQsa (body : DNode) (g : SelGroup) : List DNode := qsaList g [] [body]

/-- `document.querySelector(group)`. -/
def docQs (body : DNode) (g : SelGroup) : Option DNode := (docQsa body g).head?

/-! ## Selector constants used by the extractor -/

/-- A bare tag simple selector. -/
def tagSel (t : String) : SimpleSel := { tag := some t }

/-- A group of bare tag selectors (`'t1, t2, ...'`). -/
def tagsGroup (ts : List String) : SelGroup := ts.map (fun t => ([], tagSel t))

/-- `'h1, h2, h3, h4, h5, h6'`. -/
def hGroup : SelGroup := tagsGroup ["h1", "h2", "h3", "h4", "h5", "h6"]

/-- `'pre code, pre'`. -/
def preCodeGroup : SelGroup := [([tagSel "pre"], tagSel "code"), ([], tagSel "pre")]

/-- `'code'`. -/
def codeGroup : SelGroup := tagsGroup ["code"]

/-- `'tr'`. -/
def trGroup : SelGroup := tagsGroup ["tr"]

/-- `'th, td'`. -/
def thTdGroup : SelGroup := tagsGroup ["th", "td"]

/-- `'th'`. -/
def thGroup : SelGroup := tagsGroup ["th"]

/-- `'p'`. -/
def pGroup : SelGroup := tagsGroup ["p"]

/-- `'div, section'`. -/
def divSectionGroup : SelGroup := tagsGroup ["div", "section"]

/-! ## URL platform model

Model of the WHATWG `URL` class restricted to already-canonical
`scheme://host[/path][?query][#fragment]` URLs (no percent-encoding or
host normalization; these play no role in any claim). `new URL(s)` throws
on unparseable input, modelled by `Option`. -/

structure UrlParts where
  scheme : String
  host : String
  pathname : String
  search : String
  hash : String
deriving Repr, DecidableEq

/-- Split at the first occurrence of `pat`, returning the parts before and
after it. -/
def splitSubAux (pat : List Char) : List Char → List Char → Option (List Char × List Char)
  | [], acc => if listHasPre pat [] then some (acc.reverse, []) else none
  | c :: rest, acc =>
    if listHasPre pat (c :: rest) then some (acc.reverse, (c :: rest).drop pat.length)
    else splitSubAux pat rest (c :: acc)

/-- Split a string at the first occurrence of a pattern. -/
def splitSub? (s pat : String) : Option (String × String) :=
  (splitSubAux pat.toList s.toList []).map (fun p => (String.mk p.1, String.mk p.2))

/-- Parse `scheme://host[/path][?query][#fragment]`; `none` models the
`URL` constructor throwing. -/
def parseUrl (s : String) : Option UrlParts :=
  match splitSub? s "://" with
  | none => none
  | some (scheme, rest) =>
    if scheme == "" || !(scheme.toList.all Char.isAlpha) then none
    else
      let stop := fun (c : Char) => c == '/' || c == '?' || c == '#'
      let hostCs := rest.toList.takeWhile (fun c => !stop c)
      let tail := rest.toList.dropWhile (fun c => !stop c)
      if hostCs.isEmpty then none
      else
        let pathCs :=
          match tail with
          | '/' :: _ => tail.takeWhile (fun c => !(c == '?' || c == '#'))
          | _ => ['/']
        let afterPath :=
          match tail with
          | '/' :: _ => tail.dropWhile (fun c => !(c == '?' || c == '#'))
          | _ => tail
        let searchCs := if afterPath.head? == some '?' then afterPath.takeWhile (fun c => !(c == '#')) else []
        let hashCs := afterPath.dropWhile (fun c => !(c == '#'))
        some ⟨scheme, String.mk hostCs, String.mk pathCs, String.mk searchCs, String.mk hashCs⟩

/-- `URL.prototype.toString` for the modelled fragment (an empty `hash`
serializes without a `#`). -/
def serializeUrl (u : UrlParts) : String :=
  u.scheme ++ "://" ++ u.host ++ u.pathname ++ u.search ++ u.hash

/-- `normalizeUrl` (content script): clear the fragment, strip one trailing
slash from a non-root path, and return unparseable input unchanged. -/
def normalizeUrl (url : String) : String :=
  match parseUrl url with
  | none => url
  | some parsed =>
    let parsed1 : UrlParts := { parsed with hash := "" }
    let p := parsed1.pathname
    let p2 := if strEnds p "/" && p.length > 1 then String.mk p.toList.dropLast else p
    serializeUrl { parsed1 with pathname := p2 }

/-- Model of `new URL(href, base).href`: absolute URLs pass through,
root-relative hrefs are joined to the base's origin, anything else is left
as-is (no claim exercises the remaining relative-reference cases). -/
def resolveUrl (base href : String) : String :=
  if (parseUrl href).isSome then href
  else
    match parseUrl base with
    | some u => if strStarts href "/" then u.scheme ++ "://" ++ u.host ++ href else href
    | none => href

/-! ## Extraction records -/

structure Heading where
  level : Nat
  text : String
  id : Option String
deriving Repr, DecidableEq

structure CodeBlock where
  language : String
  code : String
deriving Repr, DecidableEq

/-! ## Language hints -/

/-- `detectLanguageFromElement`'s token loop: first `language-`/`lang-`
prefixed class token wins, prefix stripped. -/
def detectPrefLoop : List String → String
  | [] => ""
  | cls :: rest =>
    if strStarts cls "language-" then removeFirst cls "language-"
    else if strStarts cls "lang-" then removeFirst cls "lang-"
    else detectPrefLoop rest

/-- `detectLanguageFromElement` (used by the `pre` rendering rule). -/
def detectLanguageFromElement (el : DNode) : String :=
  detectPrefLoop (splitOnSpace el.className)

/-- The fixed allow-list from `extractCodeBlocks`'s regex
`^(javascript|...|swift)$/i`. -/
def allowListLangs : List String :=
  ["javascript", "typescript", "python", "ruby", "go", "rust", "java", "cpp",
   "c", "bash", "shell", "json", "yaml", "html", "css", "sql", "kotlin", "swift"]

/-- The class-token loop inside `extractCodeBlocks`: per token, in order,
try the `language-` prefix, then the `lang-` prefix, then the
case-insensitive allow-list (result lower-cased); first hit breaks. -/
def langScan : List String → String
  | [] => ""
  | cls :: rest =>
    if strStarts cls "language-" then removeFirst cls "language-"
    else if strStarts cls "lang-" then removeFirst cls "lang-"
    else if allowListLangs.contains (lowerStr cls) then lowerStr cls
    else langScan rest

/-- The `extractCodeBlocks` language detection applied to a class string. -/
def detectLangFromClasses (className : String) : String :=
  langScan (splitOnSpace className)

/-! ## Heading and code-block collection (`extractHeadings`,
`extractCodeBlocks`) -/

/-- `parseInt(el.tagName.charAt(1))` for `H1`..`H6`. -/
def headingLevel (el : DNode) : Nat :=
  (el.tagName.toList.getD 1 '0').toNat - '0'.toNat

/-- The record `extractHeadings` pushes for one heading element
(`id: el.id || undefined` — the empty string is falsy). -/
def headingOf (el : DNode) : Heading :=
  { level := headingLevel el
    text := jsTrim el.textContent
    id := if el.idStr == "" then none else some el.idStr }

/-- `extractHeadings`: one record per `h1..h6` descendant of the container,
in document order. -/
def extractHeadings (container : DNode) : List Heading :=
  (qsaFrom container hGroup).map headingOf

/-- The body of `extractCodeBlocks`'s `forEach`: pick the `code` child when
the matched element is a `pre`, detect the language from its class list,
and push a record when the trimmed text is nonempty. -/
def codeBlockStep (el : DNode) : Option CodeBlock :=
  let codeEl := if el.tagName == "CODE" then el else (qsFrom el codeGroup).getD el
  let language := detectLangFromClasses codeEl.className
  let code := jsTrim codeEl.textContent
  if code.length > 0 then some { language := language, code := code } else none

/-- `extractCodeBlocks`: iterate `container.querySelectorAll('pre code, pre')`
(one record per matched element with nonempty text). -/
def extractCodeBlocks (container : DNode) : List CodeBlock :=
  (qsaFrom container preCodeGroup).filterMap codeBlockStep

/-! ## Table conversion (`convertTableToMarkdown`) -/

/-- Trimmed text of each `th`/`td` cell of a row, in document order. -/
def rowCellTexts (row : DNode) : List String :=
  (qsaFrom row thTdGroup).map (fun cell => jsTrim cell.textContent)

/-- `'| ' + cellTexts.join(' | ') + ' |'`. -/
def rowLine (row : DNode) : String :=
  "| " ++ joinSep " | " (rowCellTexts row) ++ " |"

/-- The separator row matching a row's cell count. -/
def sepLine (row : DNode) : String :=
  "| " ++ joinSep " | " ((rowCellTexts row).map (fun _ => "---")) ++ " |"

/-- Does a row contain a `th` cell (`row.querySelector('th')` truthy)? -/
def rowHasTh (row : DNode) : Bool := (qsFrom row thGroup).isSome

/-- The `rows.forEach` accumulation: one line per row, plus a single
separator after the first row that has a `th` or is row 0, guarded by the
`headerProcessed` flag. -/
def tableLinesAux : List DNode → Nat → Bool → List String
  | [], _, _ => []
  | row :: rest, i, headerDone =>
    if !headerDone && (rowHasTh row || i == 0) then
      rowLine row :: sepLine row :: tableLinesAux rest (i + 1) true
    else
      rowLine row :: tableLinesAux rest (i + 1) headerDone

/-- `convertTableToMarkdown`. -/
def convertTableToMarkdown (table : DNode) : String :=
  match qsaFrom table trGroup with
  | [] => ""
  | r :: rs => "\n\n" ++ joinSep "\n" (tableLinesAux (r :: rs) 0 false) ++ "\n\n"

/-! ## The recursive Markdown renderer (`processNode`) -/

/-- The hidden-element short-circuit:
`el.getAttribute('hidden') !== null || el.getAttribute('aria-hidden') === 'true'`. -/
def isHiddenEl (n : DNode) : Bool :=
  (n.getAttr "hidden").isSome || n.getAttr "aria-hidden" == some "true"

mutual
/-- `processNode`, with the document base URL and the lower-cased tag of the
parent element passed explicitly (the TypeScript reads
`el.parentElement` from the live tree; the renderer's root is a detached
clone, whose parent is `null`, modelled as `none`). -/
def processNode (base : String) (parent : Option String) : DNode → String
  | DNode.text s => collapseWs s
  | DNode.comment _ => ""
  | DNode.element t attrs cs =>
    let el := DNode.element t attrs cs
    if isHiddenEl el then ""
    else
      let tag := lowerStr el.tagName
      let children := processNodes base (some tag) cs
      if tag == "h1" then "\n\n# " ++ jsTrim children ++ "\n\n"
      else if tag == "h2" then "\n\n## " ++ jsTrim children ++ "\n\n"
      else if tag == "h3" then "\n\n### " ++ jsTrim children ++ "\n\n"
      else if tag == "h4" then "\n\n#### " ++ jsTrim children ++ "\n\n"
      else if tag == "h5" then "\n\n##### " ++ jsTrim children ++ "\n\n"
      else if tag == "h6" then "\n\n###### " ++ jsTrim children ++ "\n\n"
      else if tag == "p" then "\n\n" ++ jsTrim children ++ "\n\n"
      else if tag == "br" then "\n"
      else if tag == "strong" || tag == "b" then "**" ++ jsTrim children ++ "**"
      else if tag == "em" || tag == "i" then "*" ++ jsTrim children ++ "*"
      else if tag == "code" then
        if parent != some "pre" then "`" ++ jsTrim children ++ "`" else children
      else if tag == "pre" then
        let codeEl := (qsFrom el codeGroup).getD el
        let lang := detectLanguageFromElement codeEl
        let code := jsTrim codeEl.textContent
        "\n\n```" ++ lang ++ "\n" ++ code ++ "\n```\n\n"
      else if tag == "a" then
        let txt := jsTrim children
        match el.getAttr "href" with
        | some h => if h != "" && txt != "" then "[" ++ txt ++ "](" ++ resolveUrl base h ++ ")" else txt
        | none => txt
      else if tag == "ul" || tag == "ol" then
        "\n\n" ++ joinSep "\n" (listItems base tag cs 0) ++ "\n\n"
      else if tag == "li" then children
      else if tag == "blockquote" then
        "\n\n" ++ joinSep "\n" ((splitOnNl (jsTrim children)).map (fun line => "> " ++ line)) ++ "\n\n"
      else if tag == "table" then convertTableToMarkdown el
      else if tag == "img" then
        let alt := match el.getAttr "alt" with
          | some a => if a == "" then "image" else a
          | none => "image"
        match el.getAttr "src" with
        | some s => if s != "" then "![" ++ alt ++ "](" ++ resolveUrl base s ++ ")" else ""
        | none => ""
      else if tag == "hr" then "\n\n---\n\n"
      else if tag == "script" || tag == "style" || tag == "noscript" || tag == "svg" then ""
      else children

/-- `Array.from(el.childNodes).map(processNode).join('')`. -/
def processNodes (base : String) (parent : Option String) : List DNode → String
  | [] => ""
  | c :: cs => processNode base parent c ++ processNodes base parent cs

/-- The `ul`/`ol` item pass: `Array.from(el.children)` filtered to `li`,
each rendered and trimmed, prefixed `- ` or by the 1-based index and a
dot; the index counts only `li` children (it is assigned after
filtering). -/
def listItems (base : String) (tag : String) : List DNode → Nat → List String
  | [], _ => []
  | c :: cs, i =>
    if c.isElem && lowerStr c.tagName == "li" then
      ((if tag == "ol" then Nat.repr (i + 1) ++ ". " else "- ") ++
          jsTrim (processNode base (some tag) c)) :: listItems base tag cs (i + 1)
    else listItems base tag cs i
end

/-! ## Disallowed-element removal and `convertToMarkdown` -/

/-- Tag part of `removeSelectors`. -/
def removalTags : List String := ["nav", "script", "style", "noscript", "svg", "iframe"]

/-- Class part of `removeSelectors` (`.ad`, `.advertisement`, `.cookie-banner`). -/
def removalClasses : List String := ["ad", "advertisement", "cookie-banner"]

/-- Does an element match one of the `removeSelectors` patterns? -/
def removalMatch (n : DNode) : Bool :=
  n.isElem &&
    (removalTags.contains (lowerStr n.tagName) ||
      removalClasses.any (fun c => (wsTokens n.className).contains c))

mutual
/-- The net effect of the selector-by-selector `el.remove()` loop in
`convertToMarkdown`: each selector is purely local (tag or class), so a
node survives exactly when no node on its strict-descendant path from the
clone root matches any removal selector; the clone root itself is never a
`querySelectorAll` result and is never removed. -/
def removeDisallowed : DNode → DNode
  | DNode.element t a cs => DNode.element t a (removeDisallowedList cs)
  | n => n

/-- Removal mapped over a child list. -/
def removeDisallowedList : List DNode → List DNode
  | [] => []
  | n :: rest =>
    if removalMatch n then removeDisallowedList rest
    else removeDisallowed n :: removeDisallowedList rest
end

/-- `convertToMarkdown`: operate on a deep clone of the container (value
semantics here; the mutation-frame property of the clone step is proved
separately on the arena model below), remove disallowed elements, and
render. The detached clone root has no parent element. -/
def convertToMarkdown (base : String) (container : DNode) : String :=
  processNode base none (removeDisallowed container)

/-! ## Content region selection (`getMainContent`) -/

/-- A single-class selector group. -/
def clsGroup (c : String) : SelGroup := [([], { classes := [c] })]

/-- The ordered `selectors` list of `getMainContent`. -/
def mainSelGroups : List SelGroup :=
  [ tagsGroup ["main"],
    tagsGroup ["article"],
    [([], { attrEq := [("role", "main")] })],
    clsGroup "main-content",
    clsGroup "content",
    [([], { idSel := some "content" })],
    clsGroup "post-content",
    clsGroup "article-content",
    clsGroup "documentation",
    clsGroup "docs-content",
    clsGroup "markdown-body",
    clsGroup "prose" ]

/-- `hasSubstantialContent`: more than 50 words of text. -/
def hasSubstantialContent (el : DNode) : Bool :=
  jsWordCount el.textContent > 50

/-- The selector loop of `getMainContent`: first selector whose match has
substantial content (a match without substantial content falls through to
the next selector). -/
def firstSubstantialMain (body : DNode) : List SelGroup → Option DNode
  | [] => none
  | g :: rest =>
    match docQs body g with
    | some el => if hasSubstantialContent el then some el else firstSubstantialMain body rest
    | none => firstSubstantialMain body rest

/-- `isSkippableElement`. -/
def isSkippableElement (el : DNode) : Bool :=
  let skipTags := ["nav", "header", "footer", "aside"]
  let skipClasses := ["nav", "navigation", "sidebar", "footer", "header", "menu",
    "toc", "table-of-contents", "ad", "advertisement", "cookie", "popup", "modal"]
  let skipRoles := ["navigation", "banner", "contentinfo", "complementary"]
  if skipTags.contains (lowerStr el.tagName) then true
  else if (match el.getAttr "role" with
           | some r => r != "" && skipRoles.contains r
           | none => false) then true
  else
    let cn := lowerStr el.className
    let idl := lowerStr el.idStr
    skipClasses.any (fun skip => strHasSub cn skip || strHasSub idl skip)

/-- The density score `wordCount + paragraphs*10 + headings*20`. -/
def densityScore (el : DNode) : Nat :=
  jsWordCount el.textContent + 10 * (qsaFrom el pGroup).length
    + 20 * (qsaFrom el hGroup).length

/-- The `candidates.forEach` fold of `findLargestContentArea`: the best
element is replaced only when a score strictly exceeds the running maximum
(initially 0). -/
def flcaFold : List DNode → Option DNode × Nat → Option DNode × Nat
  | [], st => st
  | el :: rest, (best, mx) =>
    if isSkippableElement el then flcaFold rest (best, mx)
    else
      let sc := densityScore el
      if sc > mx then flcaFold rest (some el, sc) else flcaFold rest (best, mx)

/-- `findLargestContentArea`. -/
def findLargestContentArea (body : DNode) : Option DNode :=
  (flcaFold (docQsa body divSectionGroup) (none, 0)).1

/-- `getMainContent`: selector cascade, then density search, then
`document.body`. -/
def getMainContent (body : DNode) : DNode :=
  match firstSubstantialMain body mainSelGroups with
  | some el => el
  | none =>
    match findLargestContentArea body with
    | some el => el
    | none => body

/-! ## Navigation harvesting (content-script copy with the extended
cascade: `detectDocSections`, `normalizeUrl`, `isSkippableNav`,
`collectLinks`) -/

structure PageLink where
  title : String
  url : String
  isCurrentPage : Bool
deriving Repr, DecidableEq

/-- Harvester state: the `sections` array and the `seen` set of normalized
URLs, both scoped to one `detectDocSections` call. -/
abbrev HState := List PageLink × List String

/-- The blocked download extensions `/\.(pdf|zip|tar|gz|exe|dmg|pkg)$/i`. -/
def docExtMatch (href : String) : Bool :=
  let l := lowerStr href
  ["pdf", "zip", "tar", "gz", "exe", "dmg", "pkg"].any (fun e => strEnds l ("." ++ e))

/-- One anchor of the `links.forEach` in `collectLinks`. `anchor.href` is
the browser-resolved absolute URL; the model takes the stored `href`
attribute as already absolute (the Tree Access Layer is responsible for
base-URL resolution). -/
def collectStep (cur origin : String) (st : HState) (link : DNode) : HState :=
  let href := (link.getAttr "href").getD ""
  let title := jsTrim link.textContent
  if href == "" || title == "" || title.length < 2 then st
  else if !(strStarts href origin) then st
  else if strHasSub href "#" && normalizeUrl href == cur then st
  else if docExtMatch href then st
  else
    let nh := normalizeUrl href
    if st.2.contains nh then st
    else (st.1 ++ [{ title := title, url := href, isCurrentPage := nh == cur }], nh :: st.2)

/-- `collectLinks`. -/
def collectLinks (cur origin : String) (links : List DNode) (st : HState) : HState :=
  links.foldl (collectStep cur origin) st

/-- `a[href]`. -/
def aHrefGroup : SelGroup := [([], { tag := some "a", attrHas := ["href"] })]

/-- `'nav, aside, [role="navigation"]'`. -/
def navGroup : SelGroup :=
  [([], tagSel "nav"), ([], tagSel "aside"), ([], { attrEq := [("role", "navigation")] })]

/-- `'ul, ol'`. -/
def ulOlGroup : SelGroup := tagsGroup ["ul", "ol"]

/-- Chain selector `.c a`. -/
def clsA (c : String) : SelGroup := [([{ classes := [c] }], tagSel "a")]

/-- Chain selector `[attr] a`. -/
def attrA (a : String) : SelGroup := [([{ attrHas := [a] }], tagSel "a")]

/-- The `sidebarSelectors` list of the extended `detectDocSections`, one
`querySelectorAll` group per entry, in source order. -/
def sidebarSelList : List SelGroup :=
  [ [([{ classes := ["sidebar"] }, tagSel "nav"], tagSel "a")],
    clsA "docs-sidebar",
    clsA "toc",
    clsA "table-of-contents",
    [([{ tag := some "nav", classes := ["docs"] }], tagSel "a")],
    [([{ attrSub := [("class", "sidebar")] }, tagSel "nav"], tagSel "a")],
    [([{ attrSub := [("class", "sidebar")] }, tagSel "ul"], tagSel "a")],
    [([tagSel "aside", tagSel "nav"], tagSel "a")],
    clsA "documentation-nav",
    clsA "doc-nav",
    clsA "docs-menu",
    attrA "data-docs-sidebar",
    clsGroup "nav-link",
    clsA "theme-doc-sidebar-menu",
    clsGroup "menu__link",
    clsA "docSidebarContainer",
    [([{ attrSub := [("class", "docSidebar")] }], tagSel "a")],
    clsA "docs-sidebar-nav",
    clsA "VPSidebar",
    clsA "VPSidebarItem",
    clsA "vp-sidebar",
    clsA "VPNavBar",
    clsA "sidebar-links",
    clsA "gitbook-navigation",
    [([{ attrEq := [("data-testid", "toc")] }], tagSel "a")],
    clsA "css-175oi2r",
    clsA "sidebar-navigation",
    clsA "md-nav",
    clsA "md-sidebar",
    clsGroup "md-nav__link",
    [([{ classes := ["rst-content"] }, { classes := ["toctree"] }], tagSel "a")],
    clsA "wy-menu",
    clsA "wy-nav-side",
    clsA "sphinxsidebar",
    attrA "data-nextra-toc",
    clsA "nextra-sidebar",
    [([{ tag := some "nav", classes := ["nextra-toc"] }], tagSel "a")],
    attrA "data-sidebar",
    clsA "mintlify-sidebar",
    clsA "notion-table_of_contents",
    clsA "sidebar-nav",
    [([{ idSel := some "td-sidebar-menu" }], tagSel "a")],
    clsA "td-sidebar-nav",
    attrA "data-sidebar",
    clsA "sidebar-content",
    clsA "bd-sidebar",
    clsA "docs-toc",
    [([{ idSel := some "docs-sidebar" }], tagSel "a")],
    clsA "doc-sidebar" ]

/-- Strategy 1: iterate the sidebar selector list; a pattern with more than
2 matches contributes its links; stop once more than 3 sections have been
found. -/
def strat1 (cur origin : String) (body : DNode) : List SelGroup → HState → HState
  | [], st => st
  | g :: rest, st =>
    let links := docQsa body g
    if links.length > 2 then
      let st' := collectLinks cur origin links st
      if st'.1.length > 3 then st' else strat1 cur origin body rest st'
    else strat1 cur origin body rest st

mutual
/-- Pre-order match collection that also reports each match's parent
element (needed by `isSkippableNav`'s `el.parentElement` check). -/
def qsaNodeP (g : SelGroup) (anc : List DNode) (par : Option DNode) :
    DNode → List (Option DNode × DNode)
  | DNode.element t a cs =>
    (if matchesGroup g anc (DNode.element t a cs) then [(par, DNode.element t a cs)] else []) ++
      qsaListP g (anc ++ [DNode.element t a cs]) (some (DNode.element t a cs)) cs
  | _ => []

/-- `qsaNodeP` over a sibling list. -/
def qsaListP (g : SelGroup) (anc : List DNode) (par : Option DNode) :
    List DNode → List (Option DNode × DNode)
  | [] => []
  | n :: rest => qsaNodeP g anc par n ++ qsaListP g anc par rest
end

/-- `document.querySelectorAll` with parents. -/
def docQsaP (body : DNode) (g : SelGroup) : List (Option DNode × DNode) :=
  qsaListP g [] none [body]

/-- `isSkippableNav`. -/
def isSkippableNav (par : Option DNode) (el : DNode) : Bool :=
  let skipPatterns := ["header", "footer", "top-nav", "main-nav", "navbar", "footer-nav"]
  if el.getAttr "role" == some "banner" || el.getAttr "role" == some "contentinfo" then true
  else
    let cn := lowerStr el.className
    let idl := lowerStr el.idStr
    if skipPatterns.any (fun pat => strHasSub cn pat || strHasSub idl pat) then true
    else
      match par with
      | some p => lowerStr p.tagName == "header" || lowerStr p.tagName == "footer"
      | none => false

/-- Strategy 2 per nav element: skip skippable navs; a nav with more than 5
`a[href]` descendants contributes its links. -/
def strat2Step (cur origin : String) (st : HState) (pn : Option DNode × DNode) : HState :=
  if isSkippableNav pn.1 pn.2 then st
  else
    let links := qsaFrom pn.2 aHrefGroup
    if links.length > 5 then collectLinks cur origin links st else st

/-- `href && href.startsWith(window.location.origin)` for a list anchor. -/
def isInternalLink (origin : String) (a : DNode) : Bool :=
  let href := (a.getAttr "href").getD ""
  href != "" && strStarts href origin

/-- Strategy 3 per `ul`/`ol`: a list contributes all its links when more
than 5 of them are internal and internal links exceed 80% of all links.
`internalLinks.length / links.length > 0.8` is an IEEE double comparison in
the source; for list lengths far below 2^50 it coincides with the exact
rational comparison `5*internal > 4*total` used here. -/
def strat3Step (cur origin : String) (st : HState) (lst : DNode) : HState :=
  let links := qsaFrom lst aHrefGroup
  let internalLinks := links.filter (isInternalLink origin)
  if internalLinks.length > 5 && 4 * links.length < 5 * internalLinks.length then
    collectLinks cur origin links st
  else st

/-- The extended `detectDocSections(document, location.href, location.origin)`:
strategy 1, then strategies 2 and 3 only while fewer than 3 sections were
found, sharing one `seen` set. -/
def detectDocSections (body : DNode) (locationHref origin : String) : List PageLink :=
  let currentUrl := normalizeUrl locationHref
  let st1 := strat1 currentUrl origin body sidebarSelList ([], [])
  let st2 :=
    if st1.1.length < 3 then (docQsaP body navGroup).foldl (strat2Step currentUrl origin) st1
    else st1
  let st3 :=
    if st2.1.length < 3 then (docQsa body ulOlGroup).foldl (strat3Step currentUrl origin) st2
    else st2
  st3.1

/-! ## Spec-side characterizations for the side-collection claim (C1)

Independent direct tree walks describing, in the spec's words, "the h1–h6
elements present in the region, in document order" and "the elements
matched by `pre code, pre`, in document order". The equivalence with the
selector engine is proved below. -/

/-- A heading element (`h1`..`h6`). -/
def isHeadingEl (el : DNode) : Bool :=
  el.isElem &&
    (lowerStr el.tagName == "h1" || lowerStr el.tagName == "h2" ||
     lowerStr el.tagName == "h3" || lowerStr el.tagName == "h4" ||
     lowerStr el.tagName == "h5" || lowerStr el.tagName == "h6")

/-- A `pre` element. -/
def isPreEl (el : DNode) : Bool := el.isElem && lowerStr el.tagName == "pre"

/-- A `code` element. -/
def isCodeEl (el : DNode) : Bool := el.isElem && lowerStr el.tagName == "code"

mutual
/-- Direct document-order walk collecting heading elements at and below a
node. -/
def specHeadingNode : DNode → List DNode
  | DNode.element t a cs =>
    (if isHeadingEl (DNode.element t a cs) then [DNode.element t a cs] else []) ++
      specHeadingList cs
  | _ => []

/-- `specHeadingNode` over a sibling list. -/
def specHeadingList : List DNode → List DNode
  | [] => []
  | n :: rest => specHeadingNode n ++ specHeadingList rest
end

/-- The spec's heading list for a region: one record per heading element of
the region itself (before any removal), in document order. -/
def specRegionHeadings (c : DNode) : List Heading :=
  (specHeadingList c.childrenOf).map headingOf

mutual
/-- Direct document-order walk collecting the elements matched by
`'pre code, pre'` (a `code` inside a `pre`, or any `pre`); the flag says
whether an enclosing element is a `pre`. -/
def specPreCodeNode (inPre : Bool) : DNode → List DNode
  | DNode.element t a cs =>
    (if (isCodeEl (DNode.element t a cs) && inPre) || isPreEl (DNode.element t a cs)
     then [DNode.element t a cs] else []) ++
      specPreCodeList (inPre || isPreEl (DNode.element t a cs)) cs
  | _ => []

/-- `specPreCodeNode` over a sibling list. -/
def specPreCodeList (inPre : Bool) : List DNode → List DNode
  | [] => []
  | n :: rest => specPreCodeNode inPre n ++ specPreCodeList inPre rest
end

/-- The spec's code-block list for a region (pre-removal), in document
order. -/
def specRegionCodeBlocks (c : DNode) : List CodeBlock :=
  (specPreCodeList (isPreEl c) c.childrenOf).filterMap codeBlockStep

/-- Matching a one-step chain is an existential over the ancestors. -/
theorem chainMatches_single (s : SimpleSel) (anc : List DNode) :
    chainMatches [s] anc = anc.any (matchesSimple s) := by
  induction anc with
  | nil => rfl
  | cons a as ih => simp [chainMatches, ih]

/-- The heading selector group tests exactly `isHeadingEl`. -/
theorem matchesGroup_hGroup (anc : List DNode) (n : DNode) :
    matchesGroup hGroup anc n = isHeadingEl n := by
  cases n <;>
    simp [matchesGroup, hGroup, tagsGroup, matchesSimple, tagSel, chainMatches,
      isHeadingEl, DNode.isElem, Bool.or_assoc]

/-- The bare `pre` selector tests exactly `isPreEl`. -/
theorem matchesSimple_pre (n : DNode) :
    matchesSimple (tagSel "pre") n = isPreEl n := by
  cases n <;> simp [matchesSimple, tagSel, isPreEl, DNode.isElem]

/-- The `'pre code, pre'` group tests code-inside-pre or pre. -/
theorem matchesGroup_preCode (anc : List DNode) (n : DNode) :
    matchesGroup preCodeGroup anc n =
      ((isCodeEl n && anc.any (matchesSimple (tagSel "pre"))) || isPreEl n) := by
  cases n <;>
    simp [matchesGroup, preCodeGroup, matchesSimple, tagSel, chainMatches,
      isCodeEl, isPreEl, DNode.isElem, chainMatches_single]

mutual
/-- The selector engine agrees with the direct heading walk (node form). -/
theorem qsaNode_hGroup_eq (anc : List DNode) : (n : DNode) →
    qsaNode hGroup anc n = specHeadingNode n
  | DNode.element t a cs => by
    simp only [qsaNode, specHeadingNode, qsaList_hGroup_eq (anc ++ [DNode.element t a cs]) cs,
      matchesGroup_hGroup]
  | DNode.text s => by simp only [qsaNode, specHeadingNode]
  | DNode.comment s => by simp only [qsaNode, specHeadingNode]

/-- The selector engine agrees with the direct heading walk (list form). -/
theorem qsaList_hGroup_eq (anc : List DNode) : (ns : List DNode) →
    qsaList hGroup anc ns = specHeadingList ns
  | [] => by simp only [qsaList, specHeadingList]
  | n :: rest => by
    simp only [qsaList, specHeadingList, qsaNode_hGroup_eq anc n, qsaList_hGroup_eq anc rest]
end

mutual
/-- The selector engine agrees with the direct `pre code, pre` walk, the
flag tracking whether some ancestor is a `pre` (node form). -/
theorem qsaNode_preCode_eq (anc : List DNode) : (n : DNode) →
    qsaNode preCodeGroup anc n = specPreCodeNode (anc.any (matchesSimple (tagSel "pre"))) n
  | DNode.element t a cs => by
    have hcs := qsaList_preCode_eq (anc ++ [DNode.element t a cs]) cs
    rw [List.any_append] at hcs
    simp only [List.any_cons, List.any_nil, Bool.or_false] at hcs
    simp only [qsaNode, specPreCodeNode, hcs, matchesGroup_preCode, matchesSimple_pre]
  | DNode.text s => by simp only [qsaNode, specPreCodeNode]
  | DNode.comment s => by simp only [qsaNode, specPreCodeNode]

/-- The selector engine agrees with the direct `pre code, pre` walk (list
form). -/
theorem qsaList_preCode_eq (anc : List DNode) : (ns : List DNode) →
    qsaList preCodeGroup anc ns = specPreCodeList (anc.any (matchesSimple (tagSel "pre"))) ns
  | [] => by simp only [qsaList, specPreCodeList]
  | n :: rest => by
    simp only [qsaList, specPreCodeList, qsaNode_preCode_eq anc n, qsaList_preCode_eq anc rest]
end

/-! ## Demonstration documents used by witnesses and counterexamples -/

/-- A region whose only heading sits inside a `nav` (which rendering
removes). -/
def navHeadingDemo : DNode :=
  DNode.element "DIV" []
    [DNode.element "NAV" [] [DNode.element "H1" [] [DNode.text "X"]]]

/-- A region containing a single `pre` wrapping
`<code class="language-python">print(1)</code>`. -/
def preCodeDemo : DNode :=
  DNode.element "DIV" [] [DNode.element "PRE" []
    [DNode.element "CODE" [("class", "language-python")] [DNode.text "print(1)"]]]

/-- Headings with a nonempty, an absent, and an empty `id` attribute. -/
def idHeadingsDemo : DNode :=
  DNode.element "DIV" []
    [DNode.element "H1" [("id", "x")] [DNode.text "A"],
     DNode.element "H2" [] [DNode.text "B"],
     DNode.element "H3" [("id", "")] [DNode.text "C"]]

/-! ## C1 -/

/-- C1, counterexample: `extractPage` collects headings from the region it
was given, before the renderer's clone-and-remove preprocessing, so a
heading inside a `nav` subtree does appear in the Heading list even though
the post-removal region contains no heading at all. -/
theorem c1_post_removal_counterexample :
    extractHeadings navHeadingDemo = [{ level := 1, text := "X", id := none }] ∧
    extractHeadings (removeDisallowed navHeadingDemo) = [] ∧
    extractHeadings navHeadingDemo ≠ extractHeadings (removeDisallowed navHeadingDemo) := by
  refine ⟨by decide, by decide, by decide⟩

/-- C1, amended: the Heading and CodeBlock lists returned by extraction
exactly match, in document order, the h1..h6 elements and the
`pre code, pre` matches of the original (pre-removal) selected region —
including elements the renderer also converted inline; elements inside
subtrees that rendering later removes are therefore also listed. -/
theorem c1_lists_match_pre_removal_region (c : DNode) :
    extractHeadings c = specRegionHeadings c ∧
    extractCodeBlocks c = specRegionCodeBlocks c := by
  constructor
  · unfold extractHeadings specRegionHeadings qsaFrom
    rw [qsaList_hGroup_eq]
  · unfold extractCodeBlocks specRegionCodeBlocks qsaFrom
    rw [qsaList_preCode_eq]
    simp only [List.any_cons, List.any_nil, Bool.or_false, matchesSimple_pre]

/-! ## C2 -/

/-- C2, counterexample: for the single `pre`-wrapping-`code` region, the
collector does NOT contribute exactly one CodeBlock record — the selector
`'pre code, pre'` matches both the `pre` and its `code` child, producing
one record per matched element. -/
theorem c2_single_record_counterexample :
    extractCodeBlocks preCodeDemo ≠ [{ language := "python", code := "print(1)" }] := by
  decide

/-- C2, amended: the renderer emits exactly the claimed fenced block, but
the code-block collector contributes TWO identical records with language
python and code print(1) — one for the `pre` element and one for its
matched `code` child. -/
theorem c2_render_and_two_records :
    convertToMarkdown "https://x.com/p" preCodeDemo = "\n\n```python\nprint(1)\n```\n\n" ∧
    extractCodeBlocks preCodeDemo =
      [{ language := "python", code := "print(1)" },
       { language := "python", code := "print(1)" }] := by
  refine ⟨by decide, by decide⟩

/-! ## C4 -/

/-- The per-token test of `extractCodeBlocks`'s language loop: a
`language-` prefix, then a `lang-` prefix, then the case-insensitive
allow-list — evaluated together on each token in turn. -/
def clsTokenHit (cls : String) : Option String :=
  if strStarts cls "language-" then some (removeFirst cls "language-")
  else if strStarts cls "lang-" then some (removeFirst cls "lang-")
  else if allowListLangs.contains (lowerStr cls) then some (lowerStr cls)
  else none

/-- C4, counterexample: the scan is a single pass per token, so an
allow-list token that appears before a `language-`-prefixed token wins
(the claim requires prefix tokens to take priority), and a stripped prefix
tag keeps its original case (the claim requires lowercase output). -/
theorem c4_priority_and_case_counterexample :
    detectLangFromClasses "python language-ruby" = "python" ∧
    ("python" : String) ≠ "ruby" ∧
    detectLangFromClasses "language-Python" = "Python" ∧
    ("Python" : String) ≠ lowerStr "Python" := by
  refine ⟨by decide, by decide, by decide, by decide⟩

/-- C4, amended: the extractor scans tokens in one pass and returns the
transform of the first token matching ANY of the three patterns (prefix
`language-` or `lang-` stripped with original case preserved, or an exact
case-insensitive allow-list match lower-cased); an allow-list hit is not
deprioritized below a later prefix hit, and no matching token yields the
empty string. -/
theorem c4_single_pass_first_hit (className : String) :
    detectLangFromClasses className =
      ((splitOnSpace className).findSome? clsTokenHit).getD "" := by
  unfold detectLangFromClasses
  induction splitOnSpace className with
  | nil => rfl
  | cons cls rest ih =>
    cases h1 : strStarts cls "language-" with
    | true => simp [langScan, clsTokenHit, h1, List.findSome?]
    | false =>
      cases h2 : strStarts cls "lang-" with
      | true => simp [langScan, clsTokenHit, h1, h2, List.findSome?]
      | false =>
        cases h3 : allowListLangs.contains (lowerStr cls) with
        | true =>
          have h3' : lowerStr cls ∈ allowListLangs := by simpa using h3
          simp [langScan, clsTokenHit, h1, h2, h3', List.findSome?]
        | false =>
          have h3' : ¬ lowerStr cls ∈ allowListLangs := by simpa using h3
          simp [langScan, clsTokenHit, h1, h2, h3', List.findSome?, ih]

/-! ## C9 -/

/-- C9: a collected Heading's `id` is `none` exactly when the element's id
attribute is absent or empty, and a Heading `id` is never the empty
string. -/
theorem c9_heading_id_none_iff_empty (c : DNode) :
    (∀ h ∈ extractHeadings c, h.id ≠ some "") ∧
    (∀ el ∈ qsaFrom c hGroup, ((headingOf el).id = none ↔ el.idStr = "")) := by
  constructor
  · intro h hmem
    rcases List.mem_map.mp hmem with ⟨el, _, rfl⟩
    unfold headingOf
    split
    · simp
    · rename_i hne
      simp only [ne_eq, Option.some.injEq]
      intro hcontra
      rw [hcontra] at hne
      simp at hne
  · intro el _
    unfold headingOf
    split
    · rename_i he
      simp only [beq_iff_eq] at he
      simp [he]
    · rename_i hne
      simp only [beq_iff_eq] at hne
      simp [hne]

/-- C9 witness at `idHeadingsDemo` (heading with absent id collected as
`id := none`). -/
theorem c9_witness :
    ({ level := 2, text := "B", id := none } : Heading) ∈ extractHeadings idHeadingsDemo ∧
    ({ level := 2, text := "B", id := none } : Heading).id ≠ some "" :=
  ⟨by decide, (c9_heading_id_none_iff_empty idHeadingsDemo).1 _ (by decide)⟩

/-! ## C10 -/

/-- The empty string is a left unit for append. -/
theorem empty_str_append (s : String) : "" ++ s = s := by
  cases s
  rfl

/-- C10: the renderer is total over every node kind — a node that is
neither text nor an element (here: a comment) renders to the empty string,
and removing such a node from a child list leaves the children's rendered
concatenation unchanged, so no node kind can make rendering fail. -/
theorem c10_non_element_renders_empty (base : String) (parent : Option String) (s : String) :
    processNode base parent (DNode.comment s) = "" ∧
    ∀ (pre post : List DNode),
      processNodes base parent (pre ++ DNode.comment s :: post) =
        processNodes base parent (pre ++ post) := by
  constructor
  · rfl
  · intro pre post
    induction pre with
    | nil =>
      show processNodes base parent (DNode.comment s :: post) = processNodes base parent post
      simp only [processNodes, processNode]
      exact empty_str_append _
    | cons c rest ih =>
      simp only [List.cons_append, processNodes, List.append_eq, ih]

/-! ## C3 -/

/-- A document whose body matches no content idiom and has no `div` or
`section` at all. -/
def plainBody : DNode := DNode.element "BODY" [] [DNode.text "hi"]

/-- If every selector hit lacks substantial content, the selector cascade
of `getMainContent` yields nothing. -/
theorem firstSubstantialMain_none (body : DNode) :
    ∀ gs : List SelGroup,
      (∀ g ∈ gs, (docQs body g).all (fun el => !hasSubstantialContent el) = true) →
      firstSubstantialMain body gs = none := by
  intro gs h
  induction gs with
  | nil => rfl
  | cons g rest ih =>
    have hg := h g (List.mem_cons_self g rest)
    unfold firstSubstantialMain
    cases hq : docQs body g with
    | none =>
      simp only [hq]
      exact ih (fun g' hg' => h g' (List.mem_cons_of_mem _ hg'))
    | some el =>
      rw [hq] at hg
      simp only [Option.all_some, Bool.not_eq_true'] at hg
      simp only [hq, hg, Bool.false_eq_true, if_false]
      exact ih (fun g' hg' => h g' (List.mem_cons_of_mem _ hg'))

/-- C3: `getMainContent` is total and never yields "nothing": when no
selector-pattern match has more than 50 words and the density-scoring
search finds no candidate, it returns the document body itself. -/
theorem c3_body_fallback (body : DNode)
    (h1 : ∀ g ∈ mainSelGroups, (docQs body g).all (fun el => !hasSubstantialContent el) = true)
    (h2 : findLargestContentArea body = none) :
    getMainContent body = body := by
  unfold getMainContent
  rw [firstSubstantialMain_none body mainSelGroups h1, h2]

/-- C3 witness: a bare text-only body hits both fallbacks and is returned
unchanged. -/
theorem c3_witness :
    (∀ g ∈ mainSelGroups, (docQs plainBody g).all (fun el => !hasSubstantialContent el) = true) ∧
    findLargestContentArea plainBody = none ∧
    getMainContent plainBody = plainBody :=
  ⟨by decide, rfl, c3_body_fallback plainBody (by decide) rfl⟩

/-! ## C7 -/

/-- First row of the demonstration table: two header cells. -/
def tableDemoRow1 : DNode :=
  DNode.element "TR" []
    [DNode.element "TH" [] [DNode.text "H1"], DNode.element "TH" [] [DNode.text "H2"]]

/-- Second row of the demonstration table: a data cell and — deliberately —
another header cell. -/
def tableDemoRow2 : DNode :=
  DNode.element "TR" []
    [DNode.element "TD" [] [DNode.text "a"], DNode.element "TH" [] [DNode.text "b"]]

/-- A table whose second row also contains a `th`. -/
def tableDemo : DNode := DNode.element "TABLE" [] [tableDemoRow1, tableDemoRow2]

/-- Once the `headerProcessed` flag is set, every remaining row emits only
its own line — no further separators. -/
theorem tableLinesAux_after_header (rs : List DNode) (i : Nat) :
    tableLinesAux rs i true = rs.map rowLine := by
  induction rs generalizing i with
  | nil => rfl
  | cons r rest ih => simp [tableLinesAux, ih]

/-- C7: for any table with at least one row, exactly one separator row is
emitted, immediately after the first row (which always qualifies: it is
row 0, and its cell count fixes the separator width), and never again —
regardless of `th` cells in later rows. -/
theorem c7_one_separator (table r : DNode) (rs : List DNode)
    (h : qsaFrom table trGroup = r :: rs) :
    convertTableToMarkdown table =
      "\n\n" ++ joinSep "\n" (rowLine r :: sepLine r :: rs.map rowLine) ++ "\n\n" := by
  unfold convertTableToMarkdown
  rw [h]
  simp [tableLinesAux, tableLinesAux_after_header]

/-- C7 witness: the two-row demonstration table (second row containing a
`th`) renders with a single separator after row 1. -/
theorem c7_witness :
    qsaFrom tableDemo trGroup = [tableDemoRow1, tableDemoRow2] ∧
    convertTableToMarkdown tableDemo = "\n\n| H1 | H2 |\n| --- | --- |\n| a | b |\n\n" :=
  ⟨rfl, (c7_one_separator tableDemo tableDemoRow1 [tableDemoRow2] rfl).trans (by decide)⟩

/-! ## C8 -/

/-- An anchor with visible text and an href. -/
def mkLink (href : String) : DNode :=
  DNode.element "A" [("href", href)] [DNode.text "some link"]

/-- A list where only 60% of the links (6 of 10) are internal to
`https://x.com`. -/
def mixedList : DNode :=
  DNode.element "UL" []
    [mkLink "https://x.com/a1", mkLink "https://x.com/a2", mkLink "https://x.com/a3",
     mkLink "https://x.com/a4", mkLink "https://x.com/a5", mkLink "https://x.com/a6",
     mkLink "https://ext.org/b1", mkLink "https://ext.org/b2",
     mkLink "https://ext.org/b3", mkLink "https://ext.org/b4"]

/-- C8: the internal-link-dense-list strategy selects a list only when it
has more than 5 internal links AND the internal fraction strictly exceeds
80%; a list at or below an 80% internal ratio — or with at most 5 internal
links — contributes nothing (the harvester state is left unchanged). -/
theorem c8_dense_list_gate (cur origin : String) (st : HState) (lst : DNode) :
    (5 * ((qsaFrom lst aHrefGroup).filter (isInternalLink origin)).length ≤
        4 * (qsaFrom lst aHrefGroup).length →
      strat3Step cur origin st lst = st) ∧
    (((qsaFrom lst aHrefGroup).filter (isInternalLink origin)).length ≤ 5 →
      strat3Step cur origin st lst = st) := by
  constructor
  · intro h
    have hlt : ¬ (4 * (qsaFrom lst aHrefGroup).length <
        5 * ((qsaFrom lst aHrefGroup).filter (isInternalLink origin)).length) := by omega
    simp [strat3Step, hlt]
  · intro h
    have hgt : ¬ (((qsaFrom lst aHrefGroup).filter (isInternalLink origin)).length > 5) := by
      omega
    simp [strat3Step, hgt]

/-- C8 witness: the 60%-internal list leaves the harvester state untouched. -/
theorem c8_witness :
    5 * ((qsaFrom mixedList aHrefGroup).filter (isInternalLink "https://x.com")).length ≤
      4 * (qsaFrom mixedList aHrefGroup).length ∧
    strat3Step "https://x.com/start" "https://x.com" (([], []) : HState) mixedList = ([], []) :=
  ⟨by decide,
   (c8_dense_list_gate "https://x.com/start" "https://x.com" ([], []) mixedList).1 (by decide)⟩

/-! ## C5 -/

/-- An anchor with the given visible text and href. -/
def sbLink (t href : String) : DNode :=
  DNode.element "A" [("href", href)] [DNode.text t]

/-- A sidebar document containing both the trailing-slash and the bare form
of the same page URL. -/
def sidebarDemo : DNode :=
  DNode.element "BODY" []
    [DNode.element "DIV" [("class", "sidebar")]
      [DNode.element "NAV" []
        [sbLink "Doc A" "https://x.com/doc/", sbLink "Doc B" "https://x.com/doc",
         sbLink "Other" "https://x.com/other"]]]

/-- The harvester-state invariant: collected links are pairwise distinct
under URL normalization, and every collected normalized URL is in the
`seen` set. -/
def harvestINV (st : HState) : Prop :=
  (st.1.map (fun p => normalizeUrl p.url)).Nodup ∧
    ∀ p ∈ st.1, normalizeUrl p.url ∈ st.2

/-- Each anchor step of `collectLinks` preserves the invariant: a link is
appended only when its normalized URL is not yet in `seen`, and the
normalized URL is added to `seen` together with it. -/
theorem collectStep_inv (cur origin : String) (st : HState) (link : DNode)
    (h : harvestINV st) : harvestINV (collectStep cur origin st link) := by
  obtain ⟨hnd, hsub⟩ := h
  simp only [collectStep]
  split
  · exact ⟨hnd, hsub⟩
  split
  · exact ⟨hnd, hsub⟩
  split
  · exact ⟨hnd, hsub⟩
  split
  · exact ⟨hnd, hsub⟩
  split
  · exact ⟨hnd, hsub⟩
  · rename_i hc
    constructor
    · rw [List.map_append]
      refine List.Nodup.append hnd (List.nodup_singleton _) ?_
      intro x hx hx'
      simp only [List.map_cons, List.map_nil, List.mem_singleton] at hx'
      subst hx'
      rcases List.mem_map.mp hx with ⟨p, hp, hpx⟩
      have : normalizeUrl p.url ∈ st.2 := hsub p hp
      rw [hpx] at this
      exact absurd (List.elem_iff.mpr this) (by simpa using hc)
    · intro p hp
      rcases List.mem_append.mp hp with hold | hnew
      · exact List.mem_cons_of_mem _ (hsub p hold)
      · simp only [List.mem_singleton] at hnew
        subst hnew
        exact List.mem_cons_self _ _

/-- `collectLinks` preserves the harvester invariant. -/
theorem collectLinks_inv (cur origin : String) (links : List DNode) :
    ∀ st : HState, harvestINV st → harvestINV (collectLinks cur origin links st) := by
  induction links with
  | nil => intro st h; exact h
  | cons l rest ih =>
    intro st h
    exact ih (collectStep cur origin st l) (collectStep_inv cur origin st l h)

/-- Strategy 1 preserves the harvester invariant. -/
theorem strat1_inv (cur origin : String) (body : DNode) :
    ∀ (gs : List SelGroup) (st : HState), harvestINV st →
      harvestINV (strat1 cur origin body gs st) := by
  intro gs
  induction gs with
  | nil => intro st h; exact h
  | cons g rest ih =>
    intro st h
    simp only [strat1]
    split
    · split
      · exact collectLinks_inv cur origin _ st h
      · exact ih _ (collectLinks_inv cur origin _ st h)
    · exact ih st h

/-- A fold whose step preserves a predicate preserves it. -/
theorem foldl_pres {α : Type} (f : HState → α → HState) (P : HState → Prop)
    (hf : ∀ st a, P st → P (f st a)) :
    ∀ (l : List α) (st : HState), P st → P (l.foldl f st) := by
  intro l
  induction l with
  | nil => intro st h; exact h
  | cons a rest ih => intro st h; exact ih (f st a) (hf st a h)

/-- Strategy 2's per-nav step preserves the harvester invariant. -/
theorem strat2Step_inv (cur origin : String) (st : HState) (pn : Option DNode × DNode)
    (h : harvestINV st) : harvestINV (strat2Step cur origin st pn) := by
  simp only [strat2Step]
  split
  · exact h
  split
  · exact collectLinks_inv cur origin _ st h
  · exact h

/-- Strategy 3's per-list step preserves the harvester invariant. -/
theorem strat3Step_inv (cur origin : String) (st : HState) (lst : DNode)
    (h : harvestINV st) : harvestINV (strat3Step cur origin st lst) := by
  simp only [strat3Step]
  split
  · exact collectLinks_inv cur origin _ st h
  · exact h

/-- The full `detectDocSections` cascade keeps the invariant established by
the empty initial state. -/
theorem detectDocSections_inv (body : DNode) (loc origin : String) :
    ((detectDocSections body loc origin).map (fun p => normalizeUrl p.url)).Nodup := by
  simp only [detectDocSections]
  have h0 : harvestINV (([], []) : HState) :=
    ⟨List.nodup_nil, fun p hp => absurd hp (List.not_mem_nil p)⟩
  have h1 := strat1_inv (normalizeUrl loc) origin body sidebarSelList ([], []) h0
  split <;> (try split) <;>
    first
      | exact (foldl_pres _ harvestINV (strat3Step_inv (normalizeUrl loc) origin) _ _
          (foldl_pres _ harvestINV (strat2Step_inv (normalizeUrl loc) origin) _ _ h1)).1
      | exact (foldl_pres _ harvestINV (strat3Step_inv (normalizeUrl loc) origin) _ _ h1).1
      | exact (foldl_pres _ harvestINV (strat2Step_inv (normalizeUrl loc) origin) _ _ h1).1
      | exact h1.1

/-- C5: the harvester's output is pairwise distinct under URL
normalization; normalization returns unparseable URLs unchanged; and the
trailing-slash and bare forms of the same page normalize identically, so
the sidebar demo collapses `https://x.com/doc/` and `https://x.com/doc` to
a single PageLink. -/
theorem c5_harvest_normalized_distinct :
    (∀ (body : DNode) (loc origin : String),
      ((detectDocSections body loc origin).map (fun p => normalizeUrl p.url)).Nodup) ∧
    (∀ u, parseUrl u = none → normalizeUrl u = u) ∧
    normalizeUrl "https://x.com/doc/" = normalizeUrl "https://x.com/doc" ∧
    detectDocSections sidebarDemo "https://x.com/start" "https://x.com" =
      [{ title := "Doc A", url := "https://x.com/doc/", isCurrentPage := false },
       { title := "Other", url := "https://x.com/other", isCurrentPage := false }] := by
  refine ⟨detectDocSections_inv, ?_, by decide, by decide⟩
  intro u h
  unfold normalizeUrl
  rw [h]

/-- C5 witness: an unparseable URL passes through normalization unchanged. -/
theorem c5_witness :
    parseUrl "not a url" = none ∧ normalizeUrl "not a url" = "not a url" :=
  ⟨by decide, c5_harvest_normalized_distinct.2.1 "not a url" (by decide)⟩

/-! ## C6: arena model of the mutable DOM

`convertToMarkdown` mutates: it calls `cloneNode(true)` and then removes
elements from the clone with `el.remove()`. To state that the caller's
tree is untouched, nodes live in an arena (a store from numeric node ids
to node records); cloning allocates fresh ids, removal rewrites child
lists in place, and the frame theorem says every id that existed before
the call still maps to exactly the same record afterwards. -/

inductive SNode where
  | elem (tag : String) (attrs : List (String × String)) (kids : List Nat)
  | txt (value : String)
  | com (value : String)
deriving Repr, DecidableEq

/-- The node store: later entries shadow earlier ones. -/
abbrev Arena := List (Nat × SNode)

/-- Read a node record. -/
def lookupA (a : Arena) (i : Nat) : Option SNode :=
  (a.find? (fun p => p.1 == i)).map (·.2)

/-- Write a node record (in-place mutation of the store). -/
def setA (a : Arena) (i : Nat) (n : SNode) : Arena := (i, n) :: a

/-- The child pointers of a stored node. -/
def nodeIds : SNode → List Nat
  | SNode.elem _ _ kids => kids
  | _ => []

/-- Every id mentioned anywhere in the store (keys and child pointers). -/
def usedIds (a : Arena) : List Nat :=
  (a.map (fun p => p.1 :: nodeIds p.2)).flatten

/-- The first id strictly above everything in use: fresh allocation starts
here. -/
def nextId (a : Arena) : Nat := (usedIds a).foldr max 0 + 1

/-- Clone a list of children with a node cloner `f` (threading arena and
fresh-id counter). -/
def cloneKids (f : Arena → Nat → Nat → Nat × Arena × Nat) :
    Arena → List Nat → Nat → List Nat × Arena × Nat
  | a, [], c => ([], a, c)
  | a, k :: rest, c =>
    let r1 := f a k c
    let r2 := cloneKids f r1.2.1 rest r1.2.2
    (r1.1 :: r2.1, r2.2.1, r2.2.2)

/-- `node.cloneNode(true)` on the arena: deep-copy the subtree at `src`
into fresh ids starting at `c`, returning the clone's root id, the new
arena, and the next free id. The fuel bounds recursion depth; any fuel
large enough for the tree gives the DOM behavior. -/
def cloneNodeA : Nat → Arena → Nat → Nat → Nat × Arena × Nat
  | 0, a, _, c => (c, setA a c (SNode.txt ""), c + 1)
  | fuel + 1, a, src, c =>
    match lookupA a src with
    | none => (c, setA a c (SNode.txt ""), c + 1)
    | some (SNode.txt s) => (c, setA a c (SNode.txt s), c + 1)
    | some (SNode.com s) => (c, setA a c (SNode.com s), c + 1)
    | some (SNode.elem t ats kids) =>
      let r := cloneKids (cloneNodeA fuel) a kids (c + 1)
      (c, setA r.2.1 c (SNode.elem t ats r.1), r.2.2)

/-- Does the stored node at `j` match a removal selector (tag or class)? -/
def removalMatchS (a : Arena) (j : Nat) : Bool :=
  match lookupA a j with
  | some (SNode.elem t ats _) => removalMatch (DNode.element t ats [])
  | _ => false

/-- Apply a remover to each id in turn. -/
def removeKidsA (f : Arena → Nat → Arena) : Arena → List Nat → Arena
  | a, [] => a
  | a, k :: rest => removeKidsA f (f a k) rest

/-- The net `removeSelectors` pass on the arena clone: drop matching
children from each element's child list (the in-place `el.remove()`), and
recurse into the surviving children. -/
def removeDisA : Nat → Arena → Nat → Arena
  | 0, a, _ => a
  | fuel + 1, a, i =>
    match lookupA a i with
    | some (SNode.elem t ats kids) =>
      let kept := kids.filter (fun j => !removalMatchS a j)
      removeKidsA (removeDisA fuel) (setA a i (SNode.elem t ats kept)) kept
    | _ => a

/-- Materialize the subtree at `i` as a value tree (dangling pointers are
skipped; fuel bounds depth). -/
def readTreeA : Nat → Arena → Nat → Option DNode
  | 0, _, _ => none
  | fuel + 1, a, i =>
    match lookupA a i with
    | none => none
    | some (SNode.txt s) => some (DNode.text s)
    | some (SNode.com s) => some (DNode.comment s)
    | some (SNode.elem t ats kids) =>
      some (DNode.element t ats (kids.filterMap (readTreeA fuel a)))

/-- `convertToMarkdown` on the arena: clone the container, remove
disallowed elements from the clone, render the clone, and return the
rendered Markdown together with the post-call store. -/
def convertToMarkdownA (base : String) (a : Arena) (rootId : Nat) : String × Arena :=
  let r := cloneNodeA (a.length + 1) a rootId (nextId a)
  let a2 := removeDisA (r.2.1.length + 1) r.2.1 r.1
  let content :=
    match readTreeA (a2.length + 1) a2 r.1 with
    | some t => processNode base none t
    | none => ""
  (content, a2)

/-- Reading after a write at a different id is unchanged; at the written id
it returns the written record. -/
theorem lookupA_setA (a : Arena) (i j : Nat) (n : SNode) :
    lookupA (setA a i n) j = if i = j then some n else lookupA a j := by
  by_cases h : i = j
  · subst h
    rw [if_pos rfl]
    unfold lookupA setA
    rw [List.find?_cons_of_pos]
    · rfl
    · simp
  · rw [if_neg h]
    unfold lookupA setA
    rw [List.find?_cons_of_neg]
    simp [h]

/-- Every member is bounded by the running maximum of a list. -/
theorem mem_le_foldr_max (l : List Nat) (x : Nat) (hx : x ∈ l) :
    x ≤ l.foldr max 0 := by
  induction l with
  | nil => cases hx
  | cons y rest ih =>
    rcases List.mem_cons.mp hx with rfl | hmem
    · exact le_max_left _ _
    · exact le_trans (ih hmem) (le_max_right _ _)

/-- A readable entry is an entry of the store. -/
theorem lookupA_mem (a : Arena) (i : Nat) (n : SNode) (h : lookupA a i = some n) :
    (i, n) ∈ a := by
  unfold lookupA at h
  cases hf : a.find? (fun p => p.1 == i) with
  | none => rw [hf] at h; cases h
  | some p =>
    rw [hf] at h
    have hp := List.find?_some hf
    have hmem := List.mem_of_find?_eq_some hf
    simp at h
    have : p.1 = i := by simpa using hp
    rw [← this, ← h]
    exact hmem

/-- Keys and child pointers of readable entries are below `nextId`. -/
theorem lookupA_lt_nextId (a : Arena) (i : Nat) (n : SNode) (h : lookupA a i = some n) :
    i < nextId a ∧ ∀ j ∈ nodeIds n, j < nextId a := by
  have hmem := lookupA_mem a i n h
  have hsub : i :: nodeIds n ∈ a.map (fun p => p.1 :: nodeIds p.2) :=
    List.mem_map.mpr ⟨(i, n), hmem, rfl⟩
  constructor
  · have : i ∈ usedIds a := by
      unfold usedIds
      exact List.mem_flatten.mpr ⟨_, hsub, List.mem_cons_self _ _⟩
    exact Nat.lt_succ_of_le (mem_le_foldr_max _ _ this)
  · intro j hj
    have : j ∈ usedIds a := by
      unfold usedIds
      exact List.mem_flatten.mpr ⟨_, hsub, List.mem_cons_of_mem _ hj⟩
    exact Nat.lt_succ_of_le (mem_le_foldr_max _ _ this)

/-- The cloning contract: the clone root gets the requested fresh id, the
counter strictly grows, ids below the counter are untouched, and every
entry of the output store is either an old entry or a fresh one whose
child pointers are strictly above the requested counter. -/
def ClonerOK (f : Arena → Nat → Nat → Nat × Arena × Nat) : Prop :=
  ∀ a k c,
    (f a k c).1 = c ∧
    c < (f a k c).2.2 ∧
    (∀ j, j < c → lookupA (f a k c).2.1 j = lookupA a j) ∧
    (∀ i n, lookupA (f a k c).2.1 i = some n →
      lookupA a i = some n ∨ (c ≤ i ∧ ∀ j ∈ nodeIds n, c < j))

/-- Writing one fresh leaf record (no child pointers) meets the stability
and provenance parts of the contract. -/
theorem setA_leaf_ok (a : Arena) (c : Nat) (n0 : SNode) (hn : nodeIds n0 = []) :
    (∀ j, j < c → lookupA (setA a c n0) j = lookupA a j) ∧
    (∀ i n, lookupA (setA a c n0) i = some n →
      lookupA a i = some n ∨ (c ≤ i ∧ ∀ j ∈ nodeIds n, c < j)) := by
  constructor
  · intro j hj
    rw [lookupA_setA, if_neg (by omega : ¬ c = j)]
  · intro i n h
    rw [lookupA_setA] at h
    by_cases hci : c = i
    · subst hci
      rw [if_pos rfl] at h
      right
      refine ⟨le_refl _, ?_⟩
      cases h
      rw [hn]
      intro j hj
      cases hj
    · rw [if_neg hci] at h
      exact Or.inl h

/-- `cloneKids` inherits the cloning contract pointwise. -/
theorem cloneKids_ok (f : Arena → Nat → Nat → Nat × Arena × Nat) (hf : ClonerOK f) :
    ∀ (ks : List Nat) (a : Arena) (c : Nat),
      c ≤ (cloneKids f a ks c).2.2 ∧
      (∀ id ∈ (cloneKids f a ks c).1, c ≤ id) ∧
      (∀ j, j < c → lookupA (cloneKids f a ks c).2.1 j = lookupA a j) ∧
      (∀ i n, lookupA (cloneKids f a ks c).2.1 i = some n →
        lookupA a i = some n ∨ (c ≤ i ∧ ∀ j ∈ nodeIds n, c < j)) := by
  intro ks
  induction ks with
  | nil =>
    intro a c
    refine ⟨le_refl _, ?_, ?_, ?_⟩
    · intro id hid; cases hid
    · intro j _; rfl
    · intro i n h; exact Or.inl h
  | cons k rest ih =>
    intro a c
    obtain ⟨hnid, hcc, hstab, hent⟩ := hf a k c
    obtain ⟨hcc2, hids2, hstab2, hent2⟩ := ih (f a k c).2.1 (f a k c).2.2
    have hv : cloneKids f a (k :: rest) c =
        ((f a k c).1 :: (cloneKids f (f a k c).2.1 rest (f a k c).2.2).1,
         (cloneKids f (f a k c).2.1 rest (f a k c).2.2).2.1,
         (cloneKids f (f a k c).2.1 rest (f a k c).2.2).2.2) := rfl
    rw [hv]
    refine ⟨?_, ?_, ?_, ?_⟩
    · exact le_trans (le_of_lt hcc) hcc2
    · intro id hid
      rcases List.mem_cons.mp hid with rfl | hmem
      · rw [hnid]
      · exact le_trans (le_of_lt hcc) (hids2 id hmem)
    · intro j hj
      rw [hstab2 j (lt_trans hj hcc), hstab j hj]
    · intro i n h
      rcases hent2 i n h with h1 | ⟨hi2, hp2⟩
      · rcases hent i n h1 with h2 | ⟨hi, hp⟩
        · exact Or.inl h2
        · exact Or.inr ⟨hi, hp⟩
      · refine Or.inr ⟨le_trans (le_of_lt hcc) hi2, ?_⟩
        intro j hj
        exact lt_trans hcc (hp2 j hj)

/-- The leaf branches of `cloneNodeA` all have this shape. -/
theorem cloneLeaf_ok (a : Arena) (c : Nat) (n0 : SNode) (hn : nodeIds n0 = [])
    (v : Nat × Arena × Nat) (hv : v = (c, setA a c n0, c + 1)) :
    v.1 = c ∧ c < v.2.2 ∧
    (∀ j, j < c → lookupA v.2.1 j = lookupA a j) ∧
    (∀ i n, lookupA v.2.1 i = some n →
      lookupA a i = some n ∨ (c ≤ i ∧ ∀ j ∈ nodeIds n, c < j)) := by
  subst hv
  exact ⟨rfl, Nat.lt_succ_self _, (setA_leaf_ok a c n0 hn).1, (setA_leaf_ok a c n0 hn).2⟩

/-- `cloneNodeA` meets the cloning contract at every fuel. -/
theorem cloneNodeA_ok : ∀ fuel : Nat, ClonerOK (cloneNodeA fuel) := by
  intro fuel
  induction fuel with
  | zero =>
    intro a k c
    exact cloneLeaf_ok a c (SNode.txt "") rfl _ rfl
  | succ fuel ih =>
    intro a k c
    cases hl : lookupA a k with
    | none =>
      exact cloneLeaf_ok a c (SNode.txt "") rfl _ (by simp [cloneNodeA, hl])
    | some n =>
      cases n with
      | txt s => exact cloneLeaf_ok a c (SNode.txt s) rfl _ (by simp [cloneNodeA, hl])
      | com s => exact cloneLeaf_ok a c (SNode.com s) rfl _ (by simp [cloneNodeA, hl])
      | elem t ats kids =>
        have hv : cloneNodeA (fuel + 1) a k c =
            (c, setA (cloneKids (cloneNodeA fuel) a kids (c + 1)).2.1 c
              (SNode.elem t ats (cloneKids (cloneNodeA fuel) a kids (c + 1)).1),
             (cloneKids (cloneNodeA fuel) a kids (c + 1)).2.2) := by
          simp [cloneNodeA, hl]
        obtain ⟨hcc2, hids2, hstab2, hent2⟩ := cloneKids_ok (cloneNodeA fuel) ih kids a (c + 1)
        rw [hv]
        refine ⟨rfl, ?_, ?_, ?_⟩
        · exact lt_of_lt_of_le (Nat.lt_succ_self c) hcc2
        · intro j hj
          rw [lookupA_setA, if_neg (by omega : ¬ c = j)]
          exact hstab2 j (lt_trans hj (Nat.lt_succ_self c))
        · intro i n h
          rw [lookupA_setA] at h
          by_cases hci : c = i
          · subst hci
            rw [if_pos rfl] at h
            cases h
            right
            refine ⟨le_refl _, ?_⟩
            intro j hj
            have := hids2 j hj
            omega
          · rw [if_neg hci] at h
            rcases hent2 i n h with h1 | ⟨hi2, hp2⟩
            · exact Or.inl h1
            · refine Or.inr ⟨by omega, ?_⟩
              intro j hj
              have := hp2 j hj
              omega

/-- All fresh (clone-owned) entries point only at fresh ids. -/
def closedAbove (a : Arena) (c0 : Nat) : Prop :=
  ∀ i n, c0 ≤ i → lookupA a i = some n → ∀ j ∈ nodeIds n, c0 ≤ j

/-- Removing over a list of clone-owned ids touches nothing below `c0`. -/
theorem removeKidsA_ok (c0 : Nat) (f : Arena → Nat → Arena)
    (hf : ∀ a i, c0 ≤ i → closedAbove a c0 →
      (∀ j, j < c0 → lookupA (f a i) j = lookupA a j) ∧ closedAbove (f a i) c0) :
    ∀ (ks : List Nat) (a : Arena), (∀ k ∈ ks, c0 ≤ k) → closedAbove a c0 →
      (∀ j, j < c0 → lookupA (removeKidsA f a ks) j = lookupA a j) ∧
        closedAbove (removeKidsA f a ks) c0 := by
  intro ks
  induction ks with
  | nil => intro a _ hca; exact ⟨fun j _ => rfl, hca⟩
  | cons k rest ih =>
    intro a hks hca
    obtain ⟨hst, hcl⟩ := hf a k (hks k (List.mem_cons_self _ _)) hca
    obtain ⟨hst2, hcl2⟩ := ih (f a k) (fun k' hk' => hks k' (List.mem_cons_of_mem _ hk')) hcl
    exact ⟨fun j hj => (hst2 j hj).trans (hst j hj), hcl2⟩

/-- The removal pass starting at a clone-owned id touches nothing below
`c0` and keeps the clone closed. -/
theorem removeDisA_ok (c0 : Nat) :
    ∀ (fuel : Nat) (a : Arena) (i : Nat), c0 ≤ i → closedAbove a c0 →
      (∀ j, j < c0 → lookupA (removeDisA fuel a i) j = lookupA a j) ∧
        closedAbove (removeDisA fuel a i) c0 := by
  intro fuel
  induction fuel with
  | zero => intro a i _ hca; exact ⟨fun j _ => rfl, hca⟩
  | succ fuel ih =>
    intro a i hi hca
    cases hl : lookupA a i with
    | none =>
      have hv : removeDisA (fuel + 1) a i = a := by simp [removeDisA, hl]
      rw [hv]; exact ⟨fun j _ => rfl, hca⟩
    | some n =>
      cases n with
      | txt s =>
        have hv : removeDisA (fuel + 1) a i = a := by simp [removeDisA, hl]
        rw [hv]; exact ⟨fun j _ => rfl, hca⟩
      | com s =>
        have hv : removeDisA (fuel + 1) a i = a := by simp [removeDisA, hl]
        rw [hv]; exact ⟨fun j _ => rfl, hca⟩
      | elem t ats kids =>
        simp only [removeDisA, hl]
        have hkids : ∀ j ∈ kids, c0 ≤ j := hca i _ hi hl
        have hkept : ∀ j ∈ kids.filter (fun j => !removalMatchS a j), c0 ≤ j :=
          fun j hj => hkids j (List.mem_of_mem_filter hj)
        have ha1stab : ∀ j, j < c0 →
            lookupA (setA a i (SNode.elem t ats (kids.filter (fun j => !removalMatchS a j)))) j =
              lookupA a j := by
          intro j hj
          rw [lookupA_setA, if_neg (by omega : ¬ i = j)]
        have ha1cl : closedAbove
            (setA a i (SNode.elem t ats (kids.filter (fun j => !removalMatchS a j)))) c0 := by
          intro i' n' hi' hl'
          rw [lookupA_setA] at hl'
          by_cases hii : i = i'
          · subst hii
            rw [if_pos rfl] at hl'
            cases hl'
            exact hkept
          · rw [if_neg hii] at hl'
            exact hca i' n' hi' hl'
        obtain ⟨hst2, hcl2⟩ := removeKidsA_ok c0 (removeDisA fuel) ih
          (kids.filter (fun j => !removalMatchS a j)) _ hkept ha1cl
        exact ⟨fun j hj => (hst2 j hj).trans (ha1stab j hj), hcl2⟩

/-- `filterMap` only depends on the function's values on the list. -/
theorem filterMap_mem_congr {α β : Type} (l : List α) (f g : α → Option β)
    (h : ∀ x ∈ l, f x = g x) : l.filterMap f = l.filterMap g := by
  induction l with
  | nil => rfl
  | cons x rest ih =>
    rw [List.filterMap_cons, List.filterMap_cons, h x (List.mem_cons_self _ _),
      ih (fun y hy => h y (List.mem_cons_of_mem _ hy))]

/-- If the store is unchanged below `c0` and the original's pointers stay
below `c0`, reading back any original subtree is unchanged. -/
theorem readTreeA_stable (c0 : Nat) (a a' : Arena)
    (hs : ∀ j, j < c0 → lookupA a' j = lookupA a j)
    (hb : ∀ i n, lookupA a i = some n → ∀ j ∈ nodeIds n, j < c0) :
    ∀ (fuel : Nat) (j : Nat), j < c0 → readTreeA fuel a' j = readTreeA fuel a j := by
  intro fuel
  induction fuel with
  | zero => intro j _; rfl
  | succ fuel ih =>
    intro j hj
    simp only [readTreeA, hs j hj]
    cases hl : lookupA a j with
    | none => rfl
    | some n =>
      cases n with
      | txt s => rfl
      | com s => rfl
      | elem t ats kids =>
        have hk : ∀ k ∈ kids, k < c0 := hb j _ hl
        show some (DNode.element t ats (kids.filterMap (readTreeA fuel a'))) =
          some (DNode.element t ats (kids.filterMap (readTreeA fuel a)))
        rw [filterMap_mem_congr kids (readTreeA fuel a') (readTreeA fuel a)
          (fun k hk' => ih k (hk k hk'))]

/-- C6: rendering never mutates the tree it was given — after
`convertToMarkdownA` returns, every pre-existing node id still reads back
the same record (tag, attributes, child ordering), and the whole original
subtree re-materializes identically, even though disallowed elements were
removed (from the clone) during preprocessing. -/
theorem c6_render_no_mutation (base : String) (a : Arena) (rootId j : Nat)
    (hj : j < nextId a) :
    lookupA ((convertToMarkdownA base a rootId).2) j = lookupA a j ∧
    ∀ fuel, readTreeA fuel ((convertToMarkdownA base a rootId).2) j = readTreeA fuel a j := by
  obtain ⟨hnid, hcc, hstab, hent⟩ := cloneNodeA_ok (a.length + 1) a rootId (nextId a)
  have hclosed : closedAbove (cloneNodeA (a.length + 1) a rootId (nextId a)).2.1 (nextId a) := by
    intro i n hi hl
    rcases hent i n hl with hold | ⟨_, hp⟩
    · exact absurd hi (not_le.mpr (lookupA_lt_nextId a i n hold).1)
    · exact fun j' hj' => le_of_lt (hp j' hj')
  obtain ⟨hst2, _⟩ := removeDisA_ok (nextId a)
    ((cloneNodeA (a.length + 1) a rootId (nextId a)).2.1.length + 1)
    (cloneNodeA (a.length + 1) a rootId (nextId a)).2.1
    (cloneNodeA (a.length + 1) a rootId (nextId a)).1
    (by rw [hnid]) hclosed
  have heq : (convertToMarkdownA base a rootId).2 =
      removeDisA ((cloneNodeA (a.length + 1) a rootId (nextId a)).2.1.length + 1)
        (cloneNodeA (a.length + 1) a rootId (nextId a)).2.1
        (cloneNodeA (a.length + 1) a rootId (nextId a)).1 := rfl
  have hstab_all : ∀ j', j' < nextId a →
      lookupA ((convertToMarkdownA base a rootId).2) j' = lookupA a j' := by
    intro j' hj'
    rw [heq]
    exact (hst2 j' hj').trans (hstab j' hj')
  refine ⟨hstab_all j hj, ?_⟩
  intro fuel
  exact readTreeA_stable (nextId a) a _ hstab_all
    (fun i n hl => (lookupA_lt_nextId a i n hl).2) fuel j hj

/-- A three-node stored document (div containing a nav containing text). -/
def demoArena : Arena :=
  [(0, SNode.elem "DIV" [] [1]), (1, SNode.elem "NAV" [] [2]), (2, SNode.txt "x")]

/-- C6 witness: rendering `demoArena`'s root (which clones it and removes
the `nav` from the clone) leaves the original `nav` entry intact. -/
theorem c6_witness :
    1 < nextId demoArena ∧
    lookupA ((convertToMarkdownA "https://x.com/p" demoArena 0).2) 1 = lookupA demoArena 1 :=
  ⟨by decide, (c6_render_no_mutation "https://x.com/p" demoArena 0 1 (by decide)).1⟩
